import Mathlib

/-!
Verification of the Adaptive Synchronization Pipeline of the
`digital-assistant` repository (email ingestion service).

The definitions below are shallow embeddings of the Python sources:

* `services/email_service/src/rate_limiter.py` (`TokenBucketRateLimiter`)
* `services/email_service/src/sync_state.py` (`SyncStateManager`)
* `services/email_service/src/strategies/volume_based_polling.py`
* `services/email_service/src/gmail_client.py` (`GmailClient`)
* `services/email_service/src/gmail_api_client.py` (`GmailApiClient`)
* `shared/utils/retry.py` (`async_retry_on_rate_limit`)
* `services/email_service/src/main.py` (`start_ingestion`,
  `ingest_emails_background`, `process_email_batch`)

Python integers are modelled as `Int` (or `Nat` for counts of list
elements), Python floor division `//` as `Int.fdiv`, and the Redis hash
holding the bucket fields as an explicit `BucketState` record.  Remote
calls and the message broker are modelled as oracles supplied as
function parameters.
-/

/-! ### Token bucket rate limiter (`rate_limiter.py`) -/

/-- Configuration fields of `TokenBucketRateLimiter.__init__`:
`max_tokens`, `refill_rate` (tokens added per period) and `refill_time`
(seconds per period).  The deployment in `main.py` uses
`max_tokens=200, refill_rate=200, refill_time=1`. -/
structure BucketConfig where
  max_tokens : Int
  refill_rate : Int
  refill_time : Int
deriving DecidableEq, Repr

/-- The two per-bucket fields stored in Redis:
`{bucket_name}:tokens` and `{bucket_name}:last_refill`
(seconds, `int(time.time())`). -/
structure BucketState where
  tokens : Int
  last_refill : Int
deriving DecidableEq, Repr

/-- `TokenBucketRateLimiter.reset_bucket`: set `tokens = max_tokens` and
`last_refill = now`.  Also the lazy initialisation performed by
`_get_current_tokens` / `_refill_tokens` on first use. -/
def reset_bucket (cfg : BucketConfig) (now : Int) : BucketState :=
  { tokens := cfg.max_tokens, last_refill := now }

/-- `TokenBucketRateLimiter._refill_tokens` on an initialised bucket.
`time_passed = now - last_refill`; if `time_passed < refill_time`
return unchanged; else `periods_passed = time_passed // refill_time`
(Python floor division, `Int.fdiv`), `tokens_to_add =
periods_passed * refill_rate`; if `tokens_to_add <= 0` return
unchanged; else store `min(current + tokens_to_add, max_tokens)` and
`last_refill = now`. -/
def refill_tokens (cfg : BucketConfig) (s : BucketState) (now : Int) : BucketState :=
  let time_passed := now - s.last_refill
  if time_passed < cfg.refill_time then s
  else
    let periods_passed := Int.fdiv time_passed cfg.refill_time
    let tokens_to_add := periods_passed * cfg.refill_rate
    if tokens_to_add ≤ 0 then s
    else
      { tokens := min (s.tokens + tokens_to_add) cfg.max_tokens, last_refill := now }

/-- `TokenBucketRateLimiter.acquire_tokens` on an initialised bucket:
first `_refill_tokens`, then read the current count; if
`current_tokens < tokens_to_consume` return `False` leaving the stored
fields as the refill left them; else store `current - tokens_to_consume`
and return `True`. -/
def acquire_tokens (cfg : BucketConfig) (s : BucketState) (now : Int) (n : Int) :
    Bool × BucketState :=
  let s1 := refill_tokens cfg s now
  if s1.tokens < n then (false, s1)
  else (true, { tokens := s1.tokens - n, last_refill := s1.last_refill })

/-- A step of the bucket's history: either an `acquire_tokens` call at
the current wall-clock time, or the passage of `dt` seconds. -/
inductive BucketOp where
  | acquire (n : Int)
  | elapse (dt : Nat)
deriving DecidableEq, Repr

/-- One step of a bucket history: `acquire` mutates the stored fields at
the current time, `elapse` advances the clock. -/
def bucket_step (cfg : BucketConfig) : BucketState × Int → BucketOp → BucketState × Int
  | (s, t), .elapse dt => (s, t + dt)
  | (s, t), .acquire n => ((acquire_tokens cfg s t n).2, t)

/-- Run a sequence of bucket operations from a freshly initialised
bucket (`reset_bucket`) at start time `t0`. -/
def bucket_run (cfg : BucketConfig) (t0 : Int) (ops : List BucketOp) : BucketState × Int :=
  ops.foldl (bucket_step cfg) (reset_bucket cfg t0, t0)

lemma refill_tokens_bounds (cfg : BucketConfig) (s : BucketState) (now : Int)
    (hmax : 0 ≤ cfg.max_tokens) (h0 : 0 ≤ s.tokens) (h1 : s.tokens ≤ cfg.max_tokens) :
    0 ≤ (refill_tokens cfg s now).tokens ∧
      (refill_tokens cfg s now).tokens ≤ cfg.max_tokens := by
  unfold refill_tokens
  by_cases hlt : now - s.last_refill < cfg.refill_time
  · simp [hlt, h0, h1]
  · by_cases hadd : Int.fdiv (now - s.last_refill) cfg.refill_time * cfg.refill_rate ≤ 0
    · simp [hlt, hadd, h0, h1]
    · push_neg at hadd
      simp only [hlt, if_false, if_neg (not_le.mpr hadd)]
      constructor
      · exact le_min (by omega) hmax
      · exact min_le_right _ _

lemma acquire_tokens_bounds (cfg : BucketConfig) (s : BucketState) (now : Int) (n : Int)
    (hmax : 0 ≤ cfg.max_tokens) (hn : 0 ≤ n)
    (h0 : 0 ≤ s.tokens) (h1 : s.tokens ≤ cfg.max_tokens) :
    0 ≤ (acquire_tokens cfg s now n).2.tokens ∧
      (acquire_tokens cfg s now n).2.tokens ≤ cfg.max_tokens := by
  obtain ⟨hr0, hr1⟩ := refill_tokens_bounds cfg s now hmax h0 h1
  unfold acquire_tokens
  by_cases hlt : (refill_tokens cfg s now).tokens < n
  · simp [hlt, hr0, hr1]
  · push_neg at hlt
    simp only [if_neg (not_lt.mpr hlt)]
    exact ⟨by omega, by omega⟩

lemma bucket_run_bounds_aux (cfg : BucketConfig) (hmax : 0 ≤ cfg.max_tokens) :
    ∀ (ops : List BucketOp) (s : BucketState) (t : Int),
      (∀ n, BucketOp.acquire n ∈ ops → 0 ≤ n) →
      0 ≤ s.tokens → s.tokens ≤ cfg.max_tokens →
      0 ≤ (ops.foldl (bucket_step cfg) (s, t)).1.tokens ∧
        (ops.foldl (bucket_step cfg) (s, t)).1.tokens ≤ cfg.max_tokens := by
  intro ops
  induction ops with
  | nil => intro s t _ h0 h1; exact ⟨h0, h1⟩
  | cons op rest ih =>
    intro s t hops h0 h1
    have hrest : ∀ n, BucketOp.acquire n ∈ rest → 0 ≤ n := by
      intro n hn; exact hops n (List.mem_cons_of_mem _ hn)
    cases op with
    | elapse dt =>
      simpa [bucket_step] using ih s (t + dt) hrest h0 h1
    | acquire n =>
      have hn : 0 ≤ n := hops n (List.mem_cons_self _ _)
      obtain ⟨ha0, ha1⟩ := acquire_tokens_bounds cfg s t n hmax hn h0 h1
      simpa [bucket_step] using ih _ t hrest ha0 ha1

lemma refill_tokens_no_double_count (cfg : BucketConfig) (s : BucketState) (now : Int) :
    refill_tokens cfg (refill_tokens cfg s now) now = refill_tokens cfg s now := by
  unfold refill_tokens
  by_cases hlt : now - s.last_refill < cfg.refill_time
  · simp [hlt]
  · by_cases hadd : Int.fdiv (now - s.last_refill) cfg.refill_time * cfg.refill_rate ≤ 0
    · simp [hlt, hadd]
    · simp only [hlt, if_false, if_neg hadd]
      have hsub : now - now = 0 := by ring
      by_cases hrt : (0 : Int) < cfg.refill_time
      · simp [hsub, hrt]
      · push_neg at hrt
        have : Int.fdiv (0 : Int) cfg.refill_time = 0 := Int.zero_fdiv _
        simp [hsub, not_lt.mpr hrt, this]

/-- Claim C4: starting from a freshly initialised bucket
(`tokens = max_tokens`), any interleaving of `acquire_tokens` calls (with
non-negative requests) and elapsed time keeps the stored token count in
`[0, max_tokens]`; moreover elapsed refill periods are never
double-counted: a second `_refill_tokens` at the same instant is a
no-op, because a productive refill resets `last_refill` to `now`. -/
theorem token_bucket_bounds (cfg : BucketConfig) (t0 : Int) (ops : List BucketOp)
    (hmax : 0 ≤ cfg.max_tokens)
    (hops : ∀ n, BucketOp.acquire n ∈ ops → 0 ≤ n) :
    (0 ≤ (bucket_run cfg t0 ops).1.tokens ∧
      (bucket_run cfg t0 ops).1.tokens ≤ cfg.max_tokens) ∧
    (∀ (s : BucketState) (now : Int),
      refill_tokens cfg (refill_tokens cfg s now) now = refill_tokens cfg s now) := by
  constructor
  · exact bucket_run_bounds_aux cfg hmax ops (reset_bucket cfg t0) t0 hops
      (by simpa [reset_bucket] using hmax) (by simp [reset_bucket])
  · intro s now; exact refill_tokens_no_double_count cfg s now

/-- Witness for C4: the deployed configuration
(`max_tokens=200, refill_rate=200, refill_time=1`), start time 0, and
the history "acquire 150, wait 0 s, acquire 60, wait 3 s, acquire 10"
stays within bounds. -/
theorem token_bucket_bounds_witness :
    (0 ≤ (200 : Int) ∧
      (∀ n, BucketOp.acquire n ∈
          [BucketOp.acquire 150, BucketOp.elapse 0, BucketOp.acquire 60,
            BucketOp.elapse 3, BucketOp.acquire 10] → 0 ≤ n)) ∧
    (0 ≤ (bucket_run ⟨200, 200, 1⟩ 0
        [BucketOp.acquire 150, BucketOp.elapse 0, BucketOp.acquire 60,
          BucketOp.elapse 3, BucketOp.acquire 10]).1.tokens ∧
      (bucket_run ⟨200, 200, 1⟩ 0
        [BucketOp.acquire 150, BucketOp.elapse 0, BucketOp.acquire 60,
          BucketOp.elapse 3, BucketOp.acquire 10]).1.tokens ≤ (200 : Int)) := by
  have hops : ∀ n, BucketOp.acquire n ∈
      [BucketOp.acquire 150, BucketOp.elapse 0, BucketOp.acquire 60,
        BucketOp.elapse 3, BucketOp.acquire 10] → 0 ≤ n := by
    intro n hn
    simp only [List.mem_cons, List.not_mem_nil, or_false] at hn
    rcases hn with h | h | h | h | h <;> first
      | (cases h; omega)
      | (exact absurd h (by simp))
  refine ⟨⟨by norm_num, hops⟩, ?_⟩
  exact (token_bucket_bounds ⟨200, 200, 1⟩ 0 _ (by norm_num) hops).1

/-- Claim C5: if, after the refill step inside `acquire_tokens`, fewer
tokens are available than requested, the call returns `False` and the
stored fields are exactly what the refill left them (no deduction); in
particular when no whole refill period has elapsed the bucket is
completely untouched. -/
theorem acquire_insufficient_untouched (cfg : BucketConfig) (s : BucketState)
    (now : Int) (n : Int) (h : (refill_tokens cfg s now).tokens < n) :
    acquire_tokens cfg s now n = (false, refill_tokens cfg s now) ∧
      (now - s.last_refill < cfg.refill_time →
        acquire_tokens cfg s now n = (false, s)) := by
  have hbase : acquire_tokens cfg s now n = (false, refill_tokens cfg s now) := by
    unfold acquire_tokens
    simp [h]
  refine ⟨hbase, ?_⟩
  intro hlt
  have hre : refill_tokens cfg s now = s := by
    unfold refill_tokens
    simp [hlt]
  rw [hbase, hre]

/-- Witness for C5: with the spec's concrete numbers — a bucket holding
30 tokens, no elapsed refill period — `acquire_tokens 50` returns
`False` and leaves `tokens = 30` and `last_refill` unchanged. -/
theorem acquire_insufficient_untouched_witness :
    ((refill_tokens ⟨100, 10, 1⟩ ⟨30, 1000⟩ 1000).tokens < 50) ∧
      acquire_tokens ⟨100, 10, 1⟩ ⟨30, 1000⟩ 1000 50 = (false, ⟨30, 1000⟩) := by
  have h : (refill_tokens ⟨100, 10, 1⟩ ⟨30, 1000⟩ 1000).tokens < 50 := by decide
  refine ⟨h, ?_⟩
  have := (acquire_insufficient_untouched ⟨100, 10, 1⟩ ⟨30, 1000⟩ 1000 50 h).2
    (by decide)
  exact this

/-- Claim C6: with a positive refill period and rate and a clock that has
not gone backwards, a refill computes
`periods = floor((now - last_refill) / refill_time)`; if `periods = 0` it
changes nothing, otherwise it sets
`tokens = min(max_tokens, tokens + periods * refill_rate)` and
`last_refill = now`. -/
theorem refill_algorithm (cfg : BucketConfig) (s : BucketState) (now : Int)
    (hrt : 0 < cfg.refill_time) (hrate : 0 < cfg.refill_rate)
    (hmono : s.last_refill ≤ now) :
    (Int.fdiv (now - s.last_refill) cfg.refill_time = 0 →
      refill_tokens cfg s now = s) ∧
    (Int.fdiv (now - s.last_refill) cfg.refill_time ≠ 0 →
      refill_tokens cfg s now =
        { tokens := min cfg.max_tokens
            (s.tokens + Int.fdiv (now - s.last_refill) cfg.refill_time * cfg.refill_rate),
          last_refill := now }) := by
  have htp : 0 ≤ now - s.last_refill := by omega
  have hfd : Int.fdiv (now - s.last_refill) cfg.refill_time =
      (now - s.last_refill) / cfg.refill_time :=
    Int.fdiv_eq_ediv _ (le_of_lt hrt)
  by_cases hlt : now - s.last_refill < cfg.refill_time
  · have hzero : Int.fdiv (now - s.last_refill) cfg.refill_time = 0 := by
      rw [hfd]; exact Int.ediv_eq_zero_of_lt htp hlt
    constructor
    · intro _; unfold refill_tokens; simp [hlt]
    · intro hne; exact absurd hzero hne
  · push_neg at hlt
    have hone : 1 ≤ Int.fdiv (now - s.last_refill) cfg.refill_time := by
      rw [hfd]
      exact (Int.le_ediv_iff_mul_le hrt).mpr (by omega)
    have hpos : 0 < Int.fdiv (now - s.last_refill) cfg.refill_time * cfg.refill_rate :=
      mul_pos (by omega) hrate
    constructor
    · intro hzero; omega
    · intro _
      unfold refill_tokens
      simp only [not_lt.mpr hlt, if_false, if_neg (not_le.mpr hpos)]
      rw [min_comm]

/-- Witness for C6: the spec's concrete instance —
`max_tokens=100, refill_rate=10, refill_time=1`, `tokens=50`,
`last_refill = now - 10` — refills to `tokens = 100` (capped, not 150)
and stamps `last_refill = now`. -/
theorem refill_algorithm_witness :
    ((0 : Int) < 1 ∧ (0 : Int) < 10 ∧ (0 : Int) ≤ 10) ∧
      refill_tokens ⟨100, 10, 1⟩ ⟨50, 0⟩ 10 = ⟨100, 10⟩ := by
  refine ⟨⟨by norm_num, by norm_num, by norm_num⟩, ?_⟩
  have h := (refill_algorithm ⟨100, 10, 1⟩ ⟨50, 0⟩ 10 (by norm_num) (by norm_num)
    (by norm_num)).2 (by decide)
  rw [h]
  decide

/-! ### Sync metrics ring buffer (`sync_state.py`) -/

/-- One sample of the per-user sync-metrics ring buffer.  The control
loop in `main.py` stores `{"batch_size": ..., "total_processed": ...,
"timestamp": ...}`; the volume strategy reads an optional numeric
`"email_count"` key, absent from the loop's samples (`none` here). -/
structure SyncMetricsSample where
  email_count : Option Int
  batch_size : Int
  total_processed : Int
deriving DecidableEq, Repr

/-- The pure core of `SyncStateManager.update_sync_metrics_in_redis`:
read the stored list, append the new sample, and if the length now
exceeds 10 keep only the last 10 (`metrics_list[-10:]`), then write
back. -/
def update_sync_metrics_step {α : Type} (l : List α) (m : α) : List α :=
  let l2 := l ++ [m]
  if l2.length > 10 then l2.drop (l2.length - 10) else l2

/-- The stored metrics list after a sequence of
`update_sync_metrics_in_redis` calls starting from an empty buffer. -/
def update_sync_metrics_run {α : Type} (ms : List α) : List α :=
  ms.foldl update_sync_metrics_step []

lemma update_sync_metrics_step_tail {α : Type} (xs : List α) (m : α) :
    update_sync_metrics_step (xs.drop (xs.length - 10)) m =
      (xs ++ [m]).drop ((xs ++ [m]).length - 10) := by
  unfold update_sync_metrics_step
  by_cases hlen : xs.length < 10
  · have h0 : xs.length - 10 = 0 := by omega
    have h1 : (xs ++ [m]).length - 10 = 0 := by
      rw [List.length_append, List.length_singleton]; omega
    have h2 : ¬ (xs.drop (xs.length - 10) ++ [m]).length > 10 := by
      rw [h0, List.drop_zero, List.length_append, List.length_singleton]; omega
    simp only [h2, if_false, h0, List.drop_zero, h1]
    rw [ite_self]
  · push_neg at hlen
    have hdlen : (xs.drop (xs.length - 10)).length = 10 := by
      rw [List.length_drop]; omega
    have h2 : (xs.drop (xs.length - 10) ++ [m]).length > 10 := by
      rw [List.length_append, List.length_singleton, hdlen]; omega
    have h3 : (xs.drop (xs.length - 10) ++ [m]).length -
        10 = 1 := by
      rw [List.length_append, List.length_singleton, hdlen]
    simp only [h2, if_true, h3]
    rw [List.drop_append_of_le_length (by rw [hdlen]; omega), List.drop_drop]
    have h4 : (xs ++ [m]).length - 10 = xs.length - 10 + 1 := by
      rw [List.length_append, List.length_singleton]; omega
    rw [h4, List.drop_append_of_le_length (by omega)]

lemma update_sync_metrics_run_tail {α : Type} (ms : List α) :
    update_sync_metrics_run ms = ms.drop (ms.length - 10) := by
  induction ms using List.reverseRecOn with
  | nil => rfl
  | append_singleton xs m ih =>
    unfold update_sync_metrics_run at ih ⊢
    rw [List.foldl_append, List.foldl_cons, List.foldl_nil, ih,
      update_sync_metrics_step_tail]

/-- Claim C9: after any sequence of metric appends starting from an
empty buffer, the stored list is exactly the suffix of the at-most-10
most recent samples in append order (newest last, oldest evicted
first), and in particular never exceeds capacity 10. -/
theorem metrics_ring_buffer {α : Type} (ms : List α) :
    update_sync_metrics_run ms = ms.drop (ms.length - 10) ∧
      (update_sync_metrics_run ms).length ≤ 10 := by
  have h := update_sync_metrics_run_tail ms
  refine ⟨h, ?_⟩
  rw [h, List.length_drop]
  omega

/-! ### Volume-based polling strategy (`volume_based_polling.py`) -/

/-- Fields of `VolumeBasedPollingStrategy` with the class-constant
defaults (`HIGH_VOLUME_THRESHOLD = 50`, `MEDIUM_VOLUME_THRESHOLD = 10`,
intervals 2/5/15 minutes, `DEFAULT_INTERVAL = 5`).  `startup_event` in
`main.py` constructs it with the defaults. -/
structure VolumeBasedPollingStrategy where
  high_volume_threshold : Int := 50
  medium_volume_threshold : Int := 10
  high_volume_interval : Int := 2
  medium_volume_interval : Int := 5
  low_volume_interval : Int := 15
deriving DecidableEq, Repr

/-- The strategy constructed by `startup_event` in `main.py`
(`VolumeBasedPollingStrategy()`), i.e. all defaults. -/
def default_volume_strategy : VolumeBasedPollingStrategy := {}

/-- `VolumeBasedPollingStrategy.calculate_polling_interval_minutes`:
empty metrics (or no sample carrying a numeric `"email_count"`) yields
`DEFAULT_INTERVAL = 5`; otherwise the average email count (Python float
division, modelled as exact rational division) is compared against the
high and medium thresholds. -/
def calculate_polling_interval_minutes (st : VolumeBasedPollingStrategy)
    (metrics : List SyncMetricsSample) : Int :=
  if metrics.isEmpty then 5
  else
    let email_counts := metrics.filterMap (fun m => m.email_count)
    if email_counts.isEmpty then 5
    else
      let avg : ℚ := (email_counts.sum : ℚ) / (email_counts.length : ℚ)
      if avg ≥ (st.high_volume_threshold : ℚ) then st.high_volume_interval
      else if avg ≥ (st.medium_volume_threshold : ℚ) then st.medium_volume_interval
      else st.low_volume_interval

/-! ### Ingestion control loop (`main.py`) -/

/-- The `status` literals of `EmailIngestionStatus` in `main.py`. -/
inductive IngestState where
  | starting
  | running
  | completed
  | stopped
  | error
  | auth_error
  | service_error
deriving DecidableEq, Repr

/-- The exception classes that `process_email_batch` can let escape for
a chunk: `AuthenticationError`, `ExternalServiceError` (publish/broker
failures, and `RateLimitError` its subclass), `SyncStateError`, or any
other exception (wrapped into `EmailProcessingError`). -/
inductive ChunkFailure where
  | auth
  | external
  | sync_state
  | other
deriving DecidableEq, Repr

/-- Which `except` clause of `ingest_emails_background` catches a
failure escaping `process_email_batch`, and the status it stores:
`AuthenticationError → auth_error`,
`ExternalServiceError | SyncStateError → service_error`,
anything else → `error`. -/
def status_of_failure : ChunkFailure → IngestState
  | .auth => .auth_error
  | .external => .service_error
  | .sync_state => .service_error
  | .other => .error

/-- The slice `emails[i:i+batch_size]` loop of
`ingest_emails_background` (`for i in range(0, len(emails),
config.batch_size)`) produces these chunks.  Recursion is fuelled by the
list length; with `0 < n` (guaranteed by the pydantic validator
`batch_size > 0`) the fuel is never exhausted. -/
def chunks_of_aux {α : Type} (n : Nat) : Nat → List α → List (List α)
  | _, [] => []
  | 0, _ => []
  | fuel + 1, l => l.take n :: chunks_of_aux n fuel (l.drop n)

/-- `emails` split into successive `batch_size`-sized chunks. -/
def chunks_of {α : Type} (n : Nat) (l : List α) : List (List α) :=
  chunks_of_aux n l.length l

/-- Outcome of the chunk-processing loop of
`ingest_emails_background`. -/
structure ChunksOutcome where
  published : List (List String)
  emails_processed : Nat
  metrics : List SyncMetricsSample
  failure : Option ChunkFailure
deriving DecidableEq, Repr

/-- The body of the `for` loop in `ingest_emails_background` (lines
452-476 of `main.py`): for each chunk, first advance
`emails_processed`, then call `process_email_batch` (modelled by the
`publish` oracle mapping chunk index to an optional escaping failure);
on success, persist the cursor and append a metrics sample
(`{"batch_size": len(batch), "total_processed": counter}`; sync-state
errors there are caught and logged); an escaping failure propagates out
of the loop, so the remaining chunks are never visited. -/
def run_chunks (publish : Nat → Option ChunkFailure) :
    Nat → Nat → List SyncMetricsSample → List (List String) → ChunksOutcome
  | _, counter, buf, [] => ⟨[], counter, buf, none⟩
  | i, counter, buf, c :: rest =>
    let counter2 := counter + c.length
    match publish i with
    | some e => ⟨[], counter2, buf, some e⟩
    | none =>
      let buf2 := update_sync_metrics_step buf
        ⟨none, (c.length : Int), (counter2 : Int)⟩
      let r := run_chunks publish (i + 1) counter2 buf2 rest
      ⟨c :: r.published, r.emails_processed, r.metrics, r.failure⟩

/-- Per-user ingestion configuration (`EmailIngestionConfig`): the
fields that drive the chunk loop and the rescheduling. -/
structure IngestConfig where
  batch_size : Nat
  polling_frequency_minutes : Int
deriving DecidableEq, Repr

/-- Result of one run of the background task: final status, the chunks
that reached the broker, the processed counter, the metrics buffer and
the scheduled interval (in minutes) for the next run (`none` when the
run aborted with an error, in which case no next run is scheduled). -/
structure RunResult where
  status : IngestState
  published : List (List String)
  emails_processed : Nat
  metrics : List SyncMetricsSample
  next_sync_minutes : Option Int
deriving DecidableEq, Repr

/-- `ingest_emails_background` from the point where the fetched `emails`
list is in hand (lines 449-506 of `main.py`): process the chunks; if a
chunk failure escapes, the matching `except` clause records the
corresponding error status and the run ends without scheduling; if all
chunks pass, status becomes `completed` and the next run is scheduled at
`now + timedelta(minutes=config.polling_frequency_minutes)` — the
polling frequency taken directly from the request configuration. -/
def ingest_emails_background (cfg : IngestConfig) (emails : List String)
    (publish : Nat → Option ChunkFailure) (buf0 : List SyncMetricsSample) : RunResult :=
  let chunks := chunks_of cfg.batch_size emails
  let o := run_chunks publish 0 0 buf0 chunks
  match o.failure with
  | none =>
    { status := .completed, published := o.published,
      emails_processed := o.emails_processed, metrics := o.metrics,
      next_sync_minutes := some cfg.polling_frequency_minutes }
  | some e =>
    { status := status_of_failure e, published := o.published,
      emails_processed := o.emails_processed, metrics := o.metrics,
      next_sync_minutes := none }

lemma run_chunks_first_failure (publish : Nat → Option ChunkFailure) (e : ChunkFailure) :
    ∀ (chunks : List (List String)) (i i0 counter : Nat) (buf : List SyncMetricsSample),
      publish (i0 + i) = some e →
      (∀ j, j < i → publish (i0 + j) = none) →
      i < chunks.length →
      (run_chunks publish i0 counter buf chunks).failure = some e ∧
        (run_chunks publish i0 counter buf chunks).published = chunks.take i := by
  intro chunks
  induction chunks with
  | nil =>
    intro i i0 counter buf _ _ hlt
    simp at hlt
  | cons c rest ih =>
    intro i i0 counter buf hfail hok hlt
    cases i with
    | zero =>
      rw [Nat.add_zero] at hfail
      simp [run_chunks, hfail]
    | succ j =>
      have h0 : publish i0 = none := by
        have := hok 0 (Nat.succ_pos j)
        rwa [Nat.add_zero] at this
      have hfail2 : publish (i0 + 1 + j) = some e := by
        have hi : i0 + 1 + j = i0 + (j + 1) := by omega
        rw [hi]; exact hfail
      have hok2 : ∀ k, k < j → publish (i0 + 1 + k) = none := by
        intro k hk
        have hi : i0 + 1 + k = i0 + (k + 1) := by omega
        rw [hi]; exact hok (k + 1) (by omega)
      have hlt2 : j < rest.length := by
        simp only [List.length_cons] at hlt
        omega
      obtain ⟨hf, hp⟩ := ih j (i0 + 1) (counter + c.length)
        (update_sync_metrics_step buf ⟨none, (c.length : Int), ((counter + c.length : Nat) : Int)⟩)
        hfail2 hok2 hlt2
      refine ⟨?_, ?_⟩
      · simp only [run_chunks, h0]
        exact hf
      · simp only [run_chunks, h0, List.take_succ_cons]
        rw [hp]

lemma run_chunks_all_ok (publish : Nat → Option ChunkFailure) :
    ∀ (chunks : List (List String)) (i0 counter : Nat) (buf : List SyncMetricsSample),
      (∀ j, j < chunks.length → publish (i0 + j) = none) →
      (run_chunks publish i0 counter buf chunks).failure = none := by
  intro chunks
  induction chunks with
  | nil => intro i0 counter buf _; rfl
  | cons c rest ih =>
    intro i0 counter buf hok
    have h0 : publish i0 = none := by
      have := hok 0 (by simp)
      rwa [Nat.add_zero] at this
    have hok2 : ∀ j, j < rest.length → publish (i0 + 1 + j) = none := by
      intro j hj
      have hi : i0 + 1 + j = i0 + (j + 1) := by omega
      rw [hi]; exact hok (j + 1) (by simp only [List.length_cons]; omega)
    simp only [run_chunks, h0]
    exact ih (i0 + 1) _ _ hok2

/-- Claim C1 (amended): a chunk whose normalize/publish step raises is
NOT skipped-and-logged: the exception escapes the `for` loop of
`ingest_emails_background`, so if every chunk before position `i`
publishes fine and chunk `i` fails, exactly the chunks before `i` reach
the broker, the run's status becomes the error status matching the
exception class (never `completed`), and no next run is scheduled. -/
theorem chunk_failure_aborts_run (cfg : IngestConfig) (emails : List String)
    (publish : Nat → Option ChunkFailure) (buf : List SyncMetricsSample)
    (i : Nat) (e : ChunkFailure)
    (hfail : publish i = some e)
    (hok : ∀ j, j < i → publish j = none)
    (hlt : i < (chunks_of cfg.batch_size emails).length) :
    (ingest_emails_background cfg emails publish buf).status = status_of_failure e ∧
      (ingest_emails_background cfg emails publish buf).status ≠ IngestState.completed ∧
      (ingest_emails_background cfg emails publish buf).published =
        (chunks_of cfg.batch_size emails).take i ∧
      (ingest_emails_background cfg emails publish buf).next_sync_minutes = none := by
  have hfail0 : publish (0 + i) = some e := by rwa [Nat.zero_add]
  have hok0 : ∀ j, j < i → publish (0 + j) = none := by
    intro j hj; rw [Nat.zero_add]; exact hok j hj
  obtain ⟨hf, hp⟩ := run_chunks_first_failure publish e
    (chunks_of cfg.batch_size emails) i 0 0 buf hfail0 hok0 hlt
  have hne : status_of_failure e ≠ IngestState.completed := by
    cases e <;> simp [status_of_failure]
  simp only [ingest_emails_background, hf]
  exact ⟨trivial, hne, hp, trivial⟩

/-- Counterexample for Claim C1: five messages, `batch_size = 3`
(chunks `[["a","b","c"], ["d","e"]]`), where publishing the first chunk
raises an `ExternalServiceError`.  The claim says the run logs the
failure, still publishes the later chunk and still reaches `completed`;
in fact nothing is published, the second chunk is never visited, and
the status becomes `service_error`. -/
theorem chunk_failure_aborts_run_counterexample :
    (ingest_emails_background ⟨3, 5⟩ ["a", "b", "c", "d", "e"]
        (fun i => if i = 0 then some ChunkFailure.external else none) []).status ≠
        IngestState.completed ∧
      (ingest_emails_background ⟨3, 5⟩ ["a", "b", "c", "d", "e"]
        (fun i => if i = 0 then some ChunkFailure.external else none) []).status =
        IngestState.service_error ∧
      (ingest_emails_background ⟨3, 5⟩ ["a", "b", "c", "d", "e"]
        (fun i => if i = 0 then some ChunkFailure.external else none) []).published = [] := by
  refine ⟨?_, ?_, ?_⟩ <;> decide

/-- Witness for the amended C1: with the same five messages but the
failure (an unexpected exception, wrapped into `EmailProcessingError`)
on the second chunk, the first chunk is published, the status is
`error`, and no next run is scheduled. -/
theorem chunk_failure_aborts_run_witness :
    ((fun i => if i = 1 then some ChunkFailure.other else none) 1 =
        some ChunkFailure.other) ∧
      (ingest_emails_background ⟨3, 5⟩ ["a", "b", "c", "d", "e"]
          (fun i => if i = 1 then some ChunkFailure.other else none) []).status =
        status_of_failure ChunkFailure.other ∧
      (ingest_emails_background ⟨3, 5⟩ ["a", "b", "c", "d", "e"]
          (fun i => if i = 1 then some ChunkFailure.other else none) []).published =
        (chunks_of 3 ["a", "b", "c", "d", "e"]).take 1 := by
  have h := chunk_failure_aborts_run ⟨3, 5⟩ ["a", "b", "c", "d", "e"]
    (fun i => if i = 1 then some ChunkFailure.other else none) [] 1 ChunkFailure.other
    (by decide) (by intro j hj; interval_cases j; decide) (by decide)
  exact ⟨by decide, h.1, h.2.2.1⟩

/-- Claim C2 (amended): when every chunk processes without a fatal
error, `ingest_emails_background` sets the status to `completed` and
schedules the next run `config.polling_frequency_minutes` minutes ahead
— a fixed configuration value.  The configured Polling Strategy
(`SyncStateManager.calculate_optimal_polling_interval_minutes`) is
never consulted by the loop. -/
theorem completed_run_schedules_config_interval (cfg : IngestConfig)
    (emails : List String) (publish : Nat → Option ChunkFailure)
    (buf : List SyncMetricsSample)
    (hok : ∀ j, j < (chunks_of cfg.batch_size emails).length → publish j = none) :
    (ingest_emails_background cfg emails publish buf).status = IngestState.completed ∧
      (ingest_emails_background cfg emails publish buf).next_sync_minutes =
        some cfg.polling_frequency_minutes := by
  have hok0 : ∀ j, j < (chunks_of cfg.batch_size emails).length →
      publish (0 + j) = none := by
    intro j hj; rw [Nat.zero_add]; exact hok j hj
  have hf := run_chunks_all_ok publish (chunks_of cfg.batch_size emails) 0 0 buf hok0
  simp only [ingest_emails_background, hf]
  exact ⟨trivial, trivial⟩

/-- Counterexample for Claim C2: a successful run with
`polling_frequency_minutes = 7` schedules the next run 7 minutes ahead,
but the configured Polling Strategy (the default
`VolumeBasedPollingStrategy` constructed in `startup_event`) applied to
the metrics just updated by this run returns 5 (the loop's samples
carry no `"email_count"` key, so the strategy falls back to
`DEFAULT_INTERVAL`); the scheduled interval is therefore not the
strategy's output. -/
theorem polling_interval_not_from_strategy_counterexample :
    (ingest_emails_background ⟨3, 7⟩ ["a", "b", "c"] (fun _ => none) []).status =
        IngestState.completed ∧
      (ingest_emails_background ⟨3, 7⟩ ["a", "b", "c"] (fun _ => none) []).next_sync_minutes =
        some 7 ∧
      calculate_polling_interval_minutes default_volume_strategy
        (ingest_emails_background ⟨3, 7⟩ ["a", "b", "c"] (fun _ => none) []).metrics = 5 ∧
      (7 : Int) ≠ 5 := by
  refine ⟨?_, ?_, ?_, ?_⟩ <;> decide

/-- Witness for the amended C2: the same successful run completes and
schedules the next run at the configured 7 minutes. -/
theorem completed_run_schedules_config_interval_witness :
    (∀ j, j < (chunks_of 3 ["a", "b", "c"]).length → (fun _ => none : Nat → Option ChunkFailure) j = none) ∧
      (ingest_emails_background ⟨3, 7⟩ ["a", "b", "c"] (fun _ => none) []).status =
        IngestState.completed ∧
      (ingest_emails_background ⟨3, 7⟩ ["a", "b", "c"] (fun _ => none) []).next_sync_minutes =
        some 7 := by
  have h := completed_run_schedules_config_interval ⟨3, 7⟩ ["a", "b", "c"]
    (fun _ => none) [] (by intro j hj; rfl)
  exact ⟨fun j hj => rfl, h.1, h.2⟩

/-! ### Limiter protocol around remote calls (`gmail_client.py`) -/

/-- Observable events of the limiter protocol in
`GmailClient.get_email_list` / `get_email_details`: an
`acquire_tokens(1)` call (with its boolean result) and the issuing of
the remote Gmail API request. -/
inductive GmailEvent where
  | acquire (ok : Bool)
  | remote_call
deriving DecidableEq, Repr

/-- The prelude of `GmailClient.get_email_list` (and identically
`get_email_details` / `get_attachment`): it awaits
`rate_limiter.acquire_tokens(1)`, discards the returned boolean, and
unconditionally proceeds to build and execute the remote request.
Returns the event trace and the bucket state after the call. -/
def get_email_list_limiter_events (cfg : BucketConfig) (b : BucketState) (now : Int) :
    List GmailEvent × BucketState :=
  let r := acquire_tokens cfg b now 1
  ([GmailEvent.acquire r.1, GmailEvent.remote_call], r.2)

/-- The discipline Claim C3 asserts: every remote call in a trace is
preceded by an `acquire` that returned `true`. -/
def remote_calls_gated (evs : List GmailEvent) : Prop :=
  ∀ n, evs.get? n = some GmailEvent.remote_call →
    ∃ m, m < n ∧ evs.get? m = some (GmailEvent.acquire true)

/-- Counterexample for Claim C3: with the deployed limiter configuration
and an empty bucket (0 tokens, no elapsed refill period),
`GmailClient.get_email_list` observes `acquire_tokens(1) = False` and
issues the remote call anyway, with no wait and no second acquisition
attempt — the trace violates the claimed gating discipline. -/
theorem acquire_result_ignored_counterexample :
    (get_email_list_limiter_events ⟨200, 200, 1⟩ ⟨0, 100⟩ 100).1 =
        [GmailEvent.acquire false, GmailEvent.remote_call] ∧
      ¬ remote_calls_gated (get_email_list_limiter_events ⟨200, 200, 1⟩ ⟨0, 100⟩ 100).1 := by
  have h1 : (get_email_list_limiter_events ⟨200, 200, 1⟩ ⟨0, 100⟩ 100).1 =
      [GmailEvent.acquire false, GmailEvent.remote_call] := by decide
  refine ⟨h1, ?_⟩
  intro hg
  obtain ⟨m, hm, hev⟩ := hg 1 (by rw [h1]; rfl)
  have hm0 : m = 0 := by omega
  subst hm0
  rw [h1] at hev
  exact absurd hev (by decide)

/-- Claim C3 (amended): around each remote call the orchestrator makes
exactly one `acquire_tokens(1)` attempt, ignores its boolean result,
and issues the remote call unconditionally; it never waits and retries
acquisition. -/
theorem acquire_result_ignored (cfg : BucketConfig) (b : BucketState) (now : Int) :
    (get_email_list_limiter_events cfg b now).1 =
        [GmailEvent.acquire (acquire_tokens cfg b now 1).1, GmailEvent.remote_call] ∧
      (get_email_list_limiter_events cfg b now).2 = (acquire_tokens cfg b now 1).2 :=
  ⟨rfl, rfl⟩

/-! ### Pagination (`GmailClient.get_all_emails`) -/

/-- The `while True` pagination loop of `GmailClient.get_all_emails`
(and structurally of `get_emails_since`).  The remote provider is
modelled as the list of pages it would return for successive page
tokens; `page_token = None` on return corresponds to the tail of the
page list being empty.  Loop body: if `len(all_emails) >= max_emails`
break; fetch the next page and extend the accumulator; break if there
is no next page token; break if `len(all_emails) + batch_size >
max_emails`; otherwise continue.  The accumulator is returned without
truncation. -/
def get_all_emails_loop (batch_size max_emails : Nat) :
    List String → List (List String) → List String
  | acc, [] => acc
  | acc, page :: rest =>
    if acc.length ≥ max_emails then acc
    else
      let acc2 := acc ++ page
      if rest.isEmpty then acc2
      else if acc2.length + batch_size > max_emails then acc2
      else get_all_emails_loop batch_size max_emails acc2 rest

/-- `GmailClient.get_all_emails(user_id, max_emails)`: run the
pagination loop from an empty accumulator over the provider's pages. -/
def get_all_emails (batch_size max_emails : Nat) (pages : List (List String)) :
    List String :=
  get_all_emails_loop batch_size max_emails [] pages

/-- Counterexample for Claim C7: with page size (`batch_size`) 2 and
`max_emails = 1`, a provider whose first page holds 2 ids makes
`get_all_emails` return both ids — the result is extended page by page
and never truncated, so it can exceed `max_results`. -/
theorem pagination_exceeds_max_counterexample :
    get_all_emails 2 1 [["a", "b"]] = ["a", "b"] ∧
      (get_all_emails 2 1 [["a", "b"]]).length > 1 := by
  exact ⟨rfl, by decide⟩

lemma get_all_emails_loop_bound (batch_size max_emails : Nat) :
    ∀ (pages : List (List String)) (acc : List String),
      (∀ p, p ∈ pages → p.length ≤ batch_size) →
      acc.length < max_emails + batch_size →
      (get_all_emails_loop batch_size max_emails acc pages).length <
        max_emails + batch_size := by
  intro pages
  induction pages with
  | nil => intro acc _ hacc; exact hacc
  | cons page rest ih =>
    intro acc hpages hacc
    have hpage : page.length ≤ batch_size := hpages page (List.mem_cons_self _ _)
    have hrest : ∀ p, p ∈ rest → p.length ≤ batch_size := by
      intro p hp; exact hpages p (List.mem_cons_of_mem _ hp)
    by_cases htop : acc.length ≥ max_emails
    · simp only [get_all_emails_loop, if_pos htop]
      exact hacc
    · push_neg at htop
      have hacc2 : (acc ++ page).length < max_emails + batch_size := by
        rw [List.length_append]; omega
      simp only [get_all_emails_loop, if_neg (not_le.mpr htop)]
      by_cases hempty : rest.isEmpty
      · simp only [hempty, if_true]
        exact hacc2
      · simp only [hempty, if_false]
        by_cases hover : (acc ++ page).length + batch_size > max_emails
        · simp only [if_pos hover]
          exact hacc2
        · simp only [if_neg hover]
          exact ih (acc ++ page) hrest hacc2

/-- Claim C7 (amended): the pagination loop accumulates ids page by
page and stops once the count reaches `max_emails`, once there is no
further page token, or once one more full page could overflow
`max_emails` — but the accumulated list is never truncated, so the
result may exceed `max_emails` by up to one page; the guaranteed bound
(for pages of at most `batch_size` ids, the `maxResults` passed to the
provider) is `length < max_emails + batch_size`. -/
theorem pagination_result_bound (batch_size max_emails : Nat)
    (pages : List (List String)) (hbs : 0 < batch_size)
    (hpages : ∀ p, p ∈ pages → p.length ≤ batch_size) :
    (get_all_emails batch_size max_emails pages).length < max_emails + batch_size := by
  unfold get_all_emails
  exact get_all_emails_loop_bound batch_size max_emails pages [] hpages (by simp; omega)

/-- Witness for the amended C7: page size 2, `max_emails = 1`, one page
of two ids — the result has 2 ids, within the bound `1 + 2`. -/
theorem pagination_result_bound_witness :
    ((0 : Nat) < 2 ∧ (∀ p, p ∈ [["a", "b"]] → p.length ≤ 2)) ∧
      (get_all_emails 2 1 [["a", "b"]]).length < 1 + 2 := by
  have hp : ∀ p, p ∈ [["a", "b"]] → p.length ≤ 2 := by
    intro p hp
    rw [List.mem_singleton] at hp
    subst hp
    decide
  exact ⟨⟨by decide, hp⟩, pagination_result_bound 2 1 [["a", "b"]] (by decide) hp⟩

/-! ### Rate-limit retry (`gmail_client.py`, `gmail_api_client.py`, `shared/utils/retry.py`) -/

/-- The error outcomes a list fetch can surface: a raw `HttpError` with
its status (what `GmailClient` re-raises), the custom exceptions
`RateLimitError` / `AuthenticationError` / `ExternalServiceError` that
`GmailApiClient` maps statuses to, and the generic `Exception` raised
if a retry loop somehow falls through. -/
inductive RemoteErr where
  | http (status : Nat)
  | rate_limit
  | auth
  | external_service
  | retries_exhausted
deriving DecidableEq, Repr

/-- A page returned by the provider's list endpoint: the message ids
(`response.get('messages', [])`) and the optional next page token. -/
structure EmailListPage where
  messages : List String
  next_page_token : Option Nat
deriving DecidableEq, Repr

/-- The `for attempt in range(self.max_retries)` retry loop of
`GmailClient.get_email_list`: the provider's behaviour on the
`attempt`-th execution is the `responder` oracle (`Except.error status`
models an `HttpError` with that HTTP status).  On an error with status
429 and `attempt < max_retries - 1`, sleep
`retry_delay * 2 ** attempt` (collected in the returned list) and
retry; otherwise re-raise the `HttpError` as-is.  Falling out of the
loop raises a generic `Exception`.  The fuel argument counts the
remaining loop iterations, initially `max_retries`. -/
def gmail_client_execute_loop (max_retries retry_delay : Nat)
    (responder : Nat → Except Nat EmailListPage) :
    Nat → Nat → Except RemoteErr EmailListPage × List Nat
  | _, 0 => (Except.error RemoteErr.retries_exhausted, [])
  | attempt, fuel + 1 =>
    match responder attempt with
    | Except.ok r => (Except.ok r, [])
    | Except.error status =>
      if status = 429 ∧ attempt < max_retries - 1 then
        let r := gmail_client_execute_loop max_retries retry_delay responder (attempt + 1) fuel
        (r.1, retry_delay * 2 ^ attempt :: r.2)
      else (Except.error (RemoteErr.http status), [])

/-- `GmailClient.get_email_list`'s execute-with-retries phase, started
at attempt 0 with the full `max_retries` budget. -/
def gmail_client_get_email_list (max_retries retry_delay : Nat)
    (responder : Nat → Except Nat EmailListPage) :
    Except RemoteErr EmailListPage × List Nat :=
  gmail_client_execute_loop max_retries retry_delay responder 0 max_retries

/-- `shared/utils/retry.py`, `async_retry_on_rate_limit` with the
default `exception_types = (HttpError,)` and `rate_limit_codes =
(429,)`: only `HttpError`s (`RemoteErr.http`) are caught; for those,
if `attempt >= max_retries - 1` or the status is not 429, re-raise,
else sleep `base_delay * 2 ** attempt` and retry.  Any other exception
escapes the decorator immediately. -/
def retry_on_rate_limit (max_retries base_delay : Nat)
    (call : Nat → Except RemoteErr EmailListPage) :
    Nat → Nat → Except RemoteErr EmailListPage × List Nat
  | _, 0 => (Except.error RemoteErr.retries_exhausted, [])
  | attempt, fuel + 1 =>
    match call attempt with
    | Except.ok r => (Except.ok r, [])
    | Except.error (RemoteErr.http status) =>
      if attempt ≥ max_retries - 1 ∨ ¬ status = 429 then
        (Except.error (RemoteErr.http status), [])
      else
        let r := retry_on_rate_limit max_retries base_delay call (attempt + 1) fuel
        (r.1, base_delay * 2 ^ attempt :: r.2)
    | Except.error e => (Except.error e, [])

/-- The body of `GmailApiClient.get_email_list` (one attempt): map the
provider's `HttpError` statuses to the project's exception taxonomy —
401/403 to `AuthenticationError`, 404 to an empty result, 429 to
`RateLimitError`, anything else to `ExternalServiceError`. -/
def gmail_api_client_call_once (responder : Nat → Except Nat EmailListPage)
    (attempt : Nat) : Except RemoteErr EmailListPage :=
  match responder attempt with
  | Except.ok r => Except.ok r
  | Except.error status =>
    if status = 401 ∨ status = 403 then Except.error RemoteErr.auth
    else if status = 404 then Except.ok ⟨[], none⟩
    else if status = 429 then Except.error RemoteErr.rate_limit
    else Except.error RemoteErr.external_service

/-- `GmailApiClient.get_email_list` as deployed: the status-mapping
body wrapped in the `@async_retry_on_rate_limit(max_retries=5,
base_delay=1)` decorator. -/
def gmail_api_client_get_email_list (max_retries base_delay : Nat)
    (responder : Nat → Except Nat EmailListPage) :
    Except RemoteErr EmailListPage × List Nat :=
  retry_on_rate_limit max_retries base_delay (gmail_api_client_call_once responder) 0 max_retries

lemma gmail_client_execute_loop_succ (max_retries retry_delay : Nat)
    (responder : Nat → Except Nat EmailListPage) (attempt fuel : Nat) :
    gmail_client_execute_loop max_retries retry_delay responder attempt (fuel + 1) =
      match responder attempt with
      | Except.ok r => (Except.ok r, [])
      | Except.error status =>
        if status = 429 ∧ attempt < max_retries - 1 then
          let r := gmail_client_execute_loop max_retries retry_delay responder (attempt + 1) fuel
          (r.1, retry_delay * 2 ^ attempt :: r.2)
        else (Except.error (RemoteErr.http status), []) := rfl

lemma gmail_client_execute_loop_all429 (max_retries retry_delay : Nat)
    (responder : Nat → Except Nat EmailListPage)
    (h429 : ∀ i, responder i = Except.error 429) :
    ∀ (fuel attempt : Nat), attempt + fuel = max_retries → 1 ≤ fuel →
      gmail_client_execute_loop max_retries retry_delay responder attempt fuel =
        (Except.error (RemoteErr.http 429),
          (List.range (fuel - 1)).map (fun i => retry_delay * 2 ^ (attempt + i))) := by
  intro fuel
  induction fuel with
  | zero => intro attempt _ h1; omega
  | succ f ihf =>
    intro attempt hsum _
    rcases Nat.eq_zero_or_pos f with hf0 | hfpos
    · subst hf0
      have hnlt : ¬ attempt < max_retries - 1 := by omega
      simp only [gmail_client_execute_loop, h429 attempt]
      rw [if_neg (by intro hc; exact hnlt hc.2)]
      simp
    · obtain ⟨k, rfl⟩ : ∃ k, f = k + 1 := ⟨f - 1, by omega⟩
      have hlt : attempt < max_retries - 1 := by omega
      have hrec := ihf (attempt + 1) (by omega) (by omega)
      rw [gmail_client_execute_loop_succ, h429 attempt]
      dsimp only
      rw [if_pos ⟨rfl, hlt⟩, hrec]
      dsimp only
      simp only [Nat.add_sub_cancel]
      rw [List.range_succ_eq_map, List.map_cons, List.map_map]
      have h20 : retry_delay * 2 ^ (attempt + 0) = retry_delay * 2 ^ attempt := by
        rw [Nat.add_zero]
      have harg : ((fun i => retry_delay * 2 ^ (attempt + i)) ∘ Nat.succ) =
          (fun i => retry_delay * 2 ^ (attempt + 1 + i)) := by
        funext i
        simp only [Function.comp_apply]
        have hexp : attempt + Nat.succ i = attempt + 1 + i := by omega
        rw [hexp]
      rw [h20, harg]

/-- Claim C8 (amended): on persistent HTTP 429 responses,
`GmailClient.get_email_list` retries `max_retries - 1` times, sleeping
`retry_delay * 2 ^ attempt` before each retry, and then re-raises the
provider's raw 429 `HttpError` — not a `RateLimitError`;
`GmailApiClient.get_email_list` maps the first 429 to `RateLimitError`,
which its retry decorator does not catch (it only catches `HttpError`),
so the `RateLimitError` surfaces immediately with zero retries. -/
theorem rate_limit_retry_behaviour (max_retries retry_delay : Nat)
    (responder : Nat → Except Nat EmailListPage)
    (hmr : 1 ≤ max_retries)
    (h429 : ∀ i, responder i = Except.error 429) :
    (gmail_client_get_email_list max_retries retry_delay responder).1 =
        Except.error (RemoteErr.http 429) ∧
      (gmail_client_get_email_list max_retries retry_delay responder).2 =
        (List.range (max_retries - 1)).map (fun i => retry_delay * 2 ^ i) ∧
      gmail_api_client_get_email_list max_retries retry_delay responder =
        (Except.error RemoteErr.rate_limit, []) := by
  have hmain := gmail_client_execute_loop_all429 max_retries retry_delay responder h429
    max_retries 0 (by omega) hmr
  have hzero : (fun i => retry_delay * 2 ^ (0 + i)) =
      (fun i => retry_delay * 2 ^ i) := by
    funext i
    rw [Nat.zero_add]
  refine ⟨?_, ?_, ?_⟩
  · unfold gmail_client_get_email_list
    rw [hmain]
  · unfold gmail_client_get_email_list
    rw [hmain, hzero]
  · obtain ⟨f, rfl⟩ : ∃ f, max_retries = f + 1 := ⟨max_retries - 1, by omega⟩
    have hcall : gmail_api_client_call_once responder 0 =
        Except.error RemoteErr.rate_limit := by
      unfold gmail_api_client_call_once
      rw [h429 0]
      norm_num
    unfold gmail_api_client_get_email_list
    simp only [retry_on_rate_limit, hcall]

/-- Counterexample for Claim C8: with the deployed settings
(`max_retries = 5`, `retry_delay = 1`) and a provider that always
answers 429, `GmailClient.get_email_list` sleeps 1, 2, 4, 8 seconds and
then surfaces the raw 429 `HttpError`, which is not the
`RateLimitError` the claim promises. -/
theorem rate_limit_retry_behaviour_counterexample :
    (gmail_client_get_email_list 5 1 (fun _ => Except.error 429)).1 =
        Except.error (RemoteErr.http 429) ∧
      (gmail_client_get_email_list 5 1 (fun _ => Except.error 429)).1 ≠
        Except.error RemoteErr.rate_limit ∧
      (gmail_client_get_email_list 5 1 (fun _ => Except.error 429)).2 = [1, 2, 4, 8] := by
  have h1 : (gmail_client_get_email_list 5 1 (fun _ => Except.error 429)).1 =
      Except.error (RemoteErr.http 429) := rfl
  refine ⟨h1, ?_, by decide⟩
  rw [h1]
  intro hcontra
  simp at hcontra

/-- Witness for the amended C8 at the deployed settings. -/
theorem rate_limit_retry_behaviour_witness :
    ((1 : Nat) ≤ 5) ∧
      (gmail_client_get_email_list 5 1 (fun _ => Except.error 429)).2 =
        (List.range 4).map (fun i => 1 * 2 ^ i) ∧
      gmail_api_client_get_email_list 5 1 (fun _ => Except.error 429) =
        (Except.error RemoteErr.rate_limit, []) := by
  have h := rate_limit_retry_behaviour 5 1 (fun _ => Except.error 429)
    (by omega) (fun i => rfl)
  exact ⟨by omega, h.2.1, h.2.2⟩

/-! ### Starting ingestion (`main.py`, `start_ingestion`) -/

/-- The response model `EmailIngestionStatus` of `main.py`. -/
structure EmailIngestionStatus where
  user_id : String
  status : IngestState
  emails_processed : Nat
  next_sync : Option Int
deriving DecidableEq, Repr

/-- The `POST /ingest/start` handler `start_ingestion` in `main.py`:
reject an empty `user_id` (`ValidationError`); if the user already has
an entry in `active_ingestions`, return that entry unchanged without
touching the map and without enqueueing a background task; otherwise
register a fresh `starting` status and enqueue
`ingest_emails_background`.  The returned boolean records whether a
background task was enqueued. -/
def start_ingestion (active : List (String × EmailIngestionStatus)) (uid : String)
    (now : Int) :
    Except String (EmailIngestionStatus × List (String × EmailIngestionStatus) × Bool) :=
  if uid = "" then Except.error "user_id is required"
  else
    match active.lookup uid with
    | some st => Except.ok (st, active, false)
    | none =>
      let st : EmailIngestionStatus :=
        { user_id := uid, status := IngestState.starting,
          emails_processed := 0, next_sync := some now }
      Except.ok (st, (uid, st) :: active, true)

/-- Claim C10: starting ingestion is idempotent per user — if the user
already has an entry in `active_ingestions`, a second call to the
start-ingestion endpoint returns the registered status object
unchanged, leaves the map unchanged, and enqueues no second background
ingestion task. -/
theorem start_ingestion_idempotent (active : List (String × EmailIngestionStatus))
    (uid : String) (now : Int) (st : EmailIngestionStatus)
    (hne : uid ≠ "") (hmem : active.lookup uid = some st) :
    start_ingestion active uid now = Except.ok (st, active, false) := by
  unfold start_ingestion
  rw [if_neg hne, hmem]

/-- Witness for C10: a map already holding a `running` entry for
`"alice"` is returned unchanged, with no task enqueued. -/
theorem start_ingestion_idempotent_witness :
    (("alice" : String) ≠ "" ∧
      [(("alice" : String),
          (⟨"alice", IngestState.running, 3, some 0⟩ : EmailIngestionStatus))].lookup
        "alice" = some (⟨"alice", IngestState.running, 3, some 0⟩ : EmailIngestionStatus)) ∧
      start_ingestion [("alice", ⟨"alice", IngestState.running, 3, some 0⟩)] "alice" 5 =
        Except.ok (⟨"alice", IngestState.running, 3, some 0⟩,
          [("alice", ⟨"alice", IngestState.running, 3, some 0⟩)], false) := by
  refine ⟨⟨by decide, by decide⟩, ?_⟩
  exact start_ingestion_idempotent _ "alice" 5 _ (by decide) (by decide)
